import Mathlib

/-!
Shallow embedding of the AuroHear hearing-screening core (src/app.py).

The adaptive staircase, threshold estimation and session sequencing live in
the Flask handlers `start_test` / `submit_response` / `next_test` and the
helpers `compute_threshold`, `save_screening_session`,
`ScreeningSessions.compute_interaural_differences` and
`ScreeningSessions.analyze_session_trends`.  Stimulus levels are small
integers (multiples of 5 between -10 and 40), so levels and thresholds are
embedded as `Int`; the analytics layer (averages, variances, slopes) divides,
so it is embedded over `ℚ`.  All Python float arithmetic that the embedded
code performs is exact on the values involved (integer-valued operands, and
one hit-rate comparison `yes / total >= 0.5` that is rendered by the exact
integer test `total ≤ 2 * yes`; the two agree for every `total < 2^53`).
Python dicts are embedded as insertion-ordered association lists.
-/

namespace AuroHear

/-- Ear channel; the test sequence is built `for ear in ['right', 'left']`. -/
inductive Ear
  | left
  | right
deriving DecidableEq, Repr

/-- One recorded stimulus presentation: `{'level': old_level, 'heard': heard}`
appended by `submit_response`. -/
structure Trial where
  level : Int
  heard : Bool
deriving DecidableEq, Repr

/-- A per-ear threshold dict `frequency -> threshold_db`, as an
insertion-ordered association list (Python dict model). -/
abbrev ThresholdMap := List (Int × Int)

/-- Dict lookup `m.get(k)`. -/
def mapGet : ThresholdMap → Int → Option Int
  | [], _ => none
  | p :: ps, k => if p.1 = k then some p.2 else mapGet ps k

/-- Dict assignment `m[k] = v`: update in place if the key exists,
append otherwise (Python dicts keep insertion order). -/
def mapSet : ThresholdMap → Int → Int → ThresholdMap
  | [], k, v => [(k, v)]
  | p :: ps, k, v => if p.1 = k then (k, v) :: ps else p :: mapSet ps k v

/-! ## compute_threshold (src/app.py lines 2043-2059) -/

/-- `level_map[l]['total']`: number of responses recorded at level `l`. -/
def countAt (rs : List Trial) (l : Int) : Nat :=
  (rs.filter (fun r => r.level == l)).length

/-- `level_map[l]['yes']`: number of heard responses recorded at level `l`. -/
def heardAt (rs : List Trial) (l : Int) : Nat :=
  (rs.filter (fun r => r.level == l && r.heard)).length

/-- The distinct levels occurring in the response list (`level_map.keys()`;
the source sorts them, but only minima are taken, so order is irrelevant). -/
def levelsOf (rs : List Trial) : List Int :=
  (rs.map (fun r => r.level)).dedup

/-- `level_map[l]['yes'] / level_map[l]['total'] >= 0.5`, rendered exactly
over ℕ: for `total > 0`, `yes / total ≥ 0.5` iff `total ≤ 2 * yes`
(the float comparison against 0.5 is exact at these magnitudes; see
`isCandidateLevel_iff_hitRate`). -/
def isCandidateLevel (rs : List Trial) (l : Int) : Bool :=
  decide (countAt rs l ≤ 2 * heardAt rs l)

/-- `compute_threshold(responses)`: 40 for an empty list; else the minimum
level with hit rate ≥ 0.5; else the minimum level with at least one heard
response; else 40.  (All embedded levels are integers, so the source's
skip-unparsable-level branches never fire.) -/
def compute_threshold (rs : List Trial) : Int :=
  if rs.isEmpty then 40
  else
    match ((levelsOf rs).filter (fun l => isCandidateLevel rs l)).min? with
    | some m => m
    | none =>
      match ((levelsOf rs).filter (fun l => decide (0 < heardAt rs l))).min? with
      | some m => m
      | none => 40

/-! ## The staircase step and session state machine
(`start_test` lines 849-882, `submit_response` lines 885-938) -/

/-- The state of the active staircase run (`test_state['current_test']`). -/
structure CurrentTest where
  frequency : Int
  ear : Ear
  current_level : Int
  responses : List Trial
  trial_count : Nat
  max_trials : Nat
deriving DecidableEq, Repr

/-- The per-user test state blob (`test_state`), with the two threshold
dicts split out of `test_state['thresholds']`. -/
structure TestState where
  thresholdsLeft : ThresholdMap
  thresholdsRight : ThresholdMap
  test_sequence : List (Int × Ear)
  current_test_index : Nat
  total_tests : Nat
  current_test : CurrentTest
deriving DecidableEq, Repr

def thresholdsFor (ts : TestState) : Ear → ThresholdMap
  | .left => ts.thresholdsLeft
  | .right => ts.thresholdsRight

/-- `test_state['thresholds'][ear][freq] = v`. -/
def setThreshold (ts : TestState) (e : Ear) (f : Int) (v : Int) : TestState :=
  match e with
  | .left => { ts with thresholdsLeft := mapSet ts.thresholdsLeft f v }
  | .right => { ts with thresholdsRight := mapSet ts.thresholdsRight f v }

def test_frequencies : List Int := [5000, 4000, 2000, 1000, 500, 250]

/-- `[{'freq': freq, 'ear': ear} for freq in test_frequencies
for ear in ['right', 'left']]`. -/
def test_sequence : List (Int × Ear) :=
  test_frequencies.flatMap (fun f => [(f, Ear.right), (f, Ear.left)])

/-- A freshly initialized staircase run for one (frequency, ear) pair:
`{'frequency': .., 'ear': .., 'current_level': 40, 'responses': [],
'trial_count': 0, 'max_trials': 12}`. -/
def initTest (fe : Int × Ear) : CurrentTest :=
  { frequency := fe.1, ear := fe.2, current_level := 40,
    responses := [], trial_count := 0, max_trials := 12 }

/-- The state written by `start_test`. -/
def start_test : TestState :=
  { thresholdsLeft := [], thresholdsRight := [],
    test_sequence := test_sequence,
    current_test_index := 0,
    total_tests := test_sequence.length,
    current_test := initTest (test_sequence.getD 0 (0, Ear.right)) }

/-- The level update of `submit_response`:
`max(-10, old - 10)` when heard, `min(40, old + 5)` when not heard. -/
def stepLevel (heard : Bool) (old : Int) : Int :=
  if heard then max (-10) (old - 10) else min 40 (old + 5)

/-- The in-place mutation of `current_test` done by one `submit_response`:
append `{'level': old_level, 'heard': heard}`, bump `trial_count`,
update `current_level`. -/
def stepTest (ct : CurrentTest) (heard : Bool) : CurrentTest :=
  { ct with
    responses := ct.responses ++ [{ level := ct.current_level, heard := heard }],
    trial_count := ct.trial_count + 1,
    current_level := stepLevel heard ct.current_level }

/-- `should_compute_threshold`: `(heard and current_level == old_level) or
trial_count >= max_trials`, evaluated after the update. -/
def runTerminated (ct : CurrentTest) (heard : Bool) : Bool :=
  (heard && ((stepTest ct heard).current_level == ct.current_level))
    || decide (ct.max_trials ≤ (stepTest ct heard).trial_count)

/-- The state transition of `submit_response` on a state that has a
`current_test` (started session, possibly already past the last run).
On termination the threshold of the mutated run is recorded under its
(ear, frequency), the cursor advances, and — only while the new cursor is
still below `total_tests` — a fresh run for the next pair replaces
`current_test`; past the end the mutated run stays in place. -/
def submit_response (ts : TestState) (heard : Bool) : TestState :=
  if runTerminated ts.current_test heard then
    { setThreshold ts ts.current_test.ear ts.current_test.frequency
        (compute_threshold (stepTest ts.current_test heard).responses) with
      current_test_index := ts.current_test_index + 1,
      current_test :=
        if ts.current_test_index + 1 < ts.total_tests then
          initTest (ts.test_sequence.getD (ts.current_test_index + 1) (0, Ear.right))
        else stepTest ts.current_test heard }
  else { ts with current_test := stepTest ts.current_test heard }

/-- Outcome of the `submit_response` handler. -/
inductive SubmitOutcome
  | ok (ts : TestState)
  | invalidState (msg : String)
deriving DecidableEq, Repr

/-- The `submit_response` handler on the stored state: a state with no
`current_test` (a never-started user, `test_state = '{}'`) is rejected with
the error `'Invalid test state: no current test'`; otherwise the transition
runs. -/
def submit (s : Option TestState) (heard : Bool) : SubmitOutcome :=
  match s with
  | none => .invalidState "Invalid test state: no current test"
  | some ts => .ok (submit_response ts heard)

/-- Fold a list of responses through `submit_response`. -/
def steps (ts : TestState) : List Bool → TestState
  | [] => ts
  | b :: bs => steps (submit_response ts b) bs

/-- `next_test` reports completion when `current_test_index >= total_tests`. -/
def completed (ts : TestState) : Prop :=
  ts.total_tests ≤ ts.current_test_index

instance : DecidablePred completed := fun ts =>
  inferInstanceAs (Decidable (ts.total_tests ≤ ts.current_test_index))

/-! ## Session completion: aggregation and persistence
(`next_test` lines 1030-1090, `save_screening_session` lines 2006-2040) -/

/-- The substitution loop of `next_test`: for each expected frequency, if
the key is absent, set it to the 40 dB default, in place. -/
def substituteDefaults (m : ThresholdMap) : ThresholdMap :=
  test_frequencies.foldl
    (fun acc f => if (mapGet acc f).isSome then acc else mapSet acc f 40) m

/-- Completion summary computed by `next_test` (floats are exact on these
integer-valued inputs; averages are embedded in ℚ). -/
structure SessionSummary where
  left_avg : ℚ
  right_avg : ℚ
  max_diff : ℚ
  is_valid : Bool
deriving DecidableEq, Repr

/-- Python `max` over a nonempty list (never called on `[]` here; the `[]`
case is a dead default). -/
def pyMax (l : List ℚ) : ℚ :=
  match l with
  | [] => 0
  | x :: xs => xs.foldl max x

/-- Python `min` over a nonempty list (never called on `[]` here). -/
def pyMin (l : List ℚ) : ℚ :=
  match l with
  | [] => 0
  | x :: xs => xs.foldl min x

/-- `[thresholds[ear][str(f)] for f in test_frequencies]` on a substituted
map (every expected key present, so the 40 default of `getD` is inert). -/
def earValues (m : ThresholdMap) : List ℚ :=
  test_frequencies.map (fun f => (((mapGet m f).getD 40 : Int) : ℚ))

/-- The summary block of `next_test` run on already-substituted maps:
`left_values`/`right_values` over the 6 expected frequencies, `is_valid`,
the two averages and `max_diff`. -/
def summarizeSubst (left' right' : ThresholdMap) : SessionSummary :=
  { left_avg := (earValues left').sum / ((earValues left').length : ℚ),
    right_avg := (earValues right').sum / ((earValues right').length : ℚ),
    max_diff := pyMax (((earValues left').zip (earValues right')).map (fun p => |p.1 - p.2|)),
    is_valid := !((earValues left' ++ earValues right').all (fun v => decide (v = 40))) }

/-- The full completion summary: substitute the defaults, then aggregate. -/
def summarize (left right : ThresholdMap) : SessionSummary :=
  summarizeSubst (substituteDefaults left) (substituteDefaults right)

/-- One persisted row of `ScreeningSessions`: (ear, frequency_hz, threshold_db). -/
abbrev SessionRow := Ear × Int × Int

/-- `save_screening_session`: one row per map entry, left ear first, dict
insertion order within an ear. -/
def sessionRows (left right : ThresholdMap) : List SessionRow :=
  (left.map (fun p => (Ear.left, p.1, p.2))) ++ (right.map (fun p => (Ear.right, p.1, p.2)))

/-- What the completion branch of `next_test` produces: the summary and the
persisted rows are computed from the locally substituted maps, while the
stored per-user `test_state` is not rewritten by this handler. -/
structure CompletionResult where
  summary : SessionSummary
  rows : List SessionRow
  stored : TestState
deriving Repr

/-- The completion branch of `next_test` (reached when
`current_test_index >= total_tests`): the summary and the saved rows are
both computed from the locally substituted maps. -/
def next_test_completed (ts : TestState) : CompletionResult :=
  { summary := summarizeSubst (substituteDefaults ts.thresholdsLeft)
      (substituteDefaults ts.thresholdsRight),
    rows := sessionRows (substituteDefaults ts.thresholdsLeft)
      (substituteDefaults ts.thresholdsRight),
    stored := ts }

/-! ## Interaural analysis
(`ScreeningSessions.compute_interaural_differences`, lines 288-352) -/

/-- An ad hoc per-ear threshold map as submitted to the interaural endpoint
(values may be arbitrary numerics, embedded as ℚ). -/
abbrev EarMap := List (Int × ℚ)

def emGet : EarMap → Int → Option ℚ
  | [], _ => none
  | p :: ps, k => if p.1 = k then some p.2 else emGet ps k

/-- `common_frequencies = set(left_data.keys()) & set(right_data.keys())`
(set iteration order is irrelevant: only minima/maxima/means and keyed
lookups are derived from it). -/
def commonFrequencies (left right : EarMap) : List Int :=
  ((left.map (fun p => p.1)).dedup).filter (fun f => (emGet right f).isSome)

/-- One per-frequency entry of the analysis. -/
structure FreqDiff where
  left_threshold : ℚ
  right_threshold : ℚ
  absolute_difference : ℚ
  signed_difference : ℚ
deriving DecidableEq, Repr

/-- The `summary_stats` block. -/
structure InterauralStats where
  max_absolute_difference : ℚ
  min_absolute_difference : ℚ
  mean_absolute_difference : ℚ
  max_signed_difference : ℚ
  min_signed_difference : ℚ
  mean_signed_difference : ℚ
  frequencies_compared : Nat
  total_frequencies : Nat
deriving DecidableEq, Repr

structure InterauralAnalysis where
  per_frequency : List (Int × FreqDiff)
  summary_stats : InterauralStats
deriving DecidableEq, Repr

/-- The per-frequency entry built inside the loop: `left_val`, `right_val`,
`abs(left - right)`, `left - right` (`getD 0` is inert: entries exist for
every common frequency). -/
def interauralEntry (left right : EarMap) (f : Int) : FreqDiff :=
  { left_threshold := (emGet left f).getD 0,
    right_threshold := (emGet right f).getD 0,
    absolute_difference := |(emGet left f).getD 0 - (emGet right f).getD 0|,
    signed_difference := (emGet left f).getD 0 - (emGet right f).getD 0 }

/-- The `differences` dict of the analysis. -/
def interauralPerFrequency (left right : EarMap) : List (Int × FreqDiff) :=
  (commonFrequencies left right).map (fun f => (f, interauralEntry left right f))

/-- The `abs_diffs` list accumulated by the loop. -/
def interauralAbsDiffs (left right : EarMap) : List ℚ :=
  (interauralPerFrequency left right).map (fun p => p.2.absolute_difference)

/-- The `signed_diffs` list accumulated by the loop. -/
def interauralSignedDiffs (left right : EarMap) : List ℚ :=
  (interauralPerFrequency left right).map (fun p => p.2.signed_difference)

/-- `compute_interaural_differences`: `None` when there is no common
frequency; otherwise per-frequency differences over exactly the common
frequencies (no default substitution) plus summary statistics. -/
def compute_interaural_differences (left right : EarMap) : Option InterauralAnalysis :=
  if (commonFrequencies left right).isEmpty then none
  else
    some
      { per_frequency := interauralPerFrequency left right,
        summary_stats :=
          { max_absolute_difference := pyMax (interauralAbsDiffs left right),
            min_absolute_difference := pyMin (interauralAbsDiffs left right),
            mean_absolute_difference :=
              (interauralAbsDiffs left right).sum / ((interauralAbsDiffs left right).length : ℚ),
            max_signed_difference := pyMax (interauralSignedDiffs left right),
            min_signed_difference := pyMin (interauralSignedDiffs left right),
            mean_signed_difference :=
              (interauralSignedDiffs left right).sum / ((interauralSignedDiffs left right).length : ℚ),
            frequencies_compared := (interauralAbsDiffs left right).length,
            total_frequencies := (commonFrequencies left right).length } }

/-- The `/user/interaural-analysis` handler branch: a `None` analysis is
mapped to the explicit insufficient-data error response. -/
def analyze_interaural_endpoint (left right : EarMap) : Except String InterauralAnalysis :=
  match compute_interaural_differences left right with
  | none => .error "Unable to compute differences - insufficient data"
  | some a => .ok a

/-! ## Trend analysis
(`ScreeningSessions.analyze_session_trends`, lines 355-520) -/

/-- One grouped session record as assembled by `analyze_session_trends`
(`left_avg`, `right_avg`, `max_interaural_diff`), in timestamp order. -/
structure SessionMetric where
  left_avg : ℚ
  right_avg : ℚ
  max_interaural_diff : ℚ
deriving DecidableEq, Repr

/-- `overall_avg = (left_avg + right_avg) / 2`. -/
def overall_avg (s : SessionMetric) : ℚ :=
  (s.left_avg + s.right_avg) / 2

/-- `calculate_variance`: 0 below two points, else the population variance
`sum((x - mean)^2) / n`. -/
def calculate_variance (values : List ℚ) : ℚ :=
  if values.length < 2 then 0
  else (values.map (fun x => (x - values.sum / (values.length : ℚ)) ^ 2)).sum /
    (values.length : ℚ)

/-- `x_vals = list(range(n))`, as rationals. -/
def indexVals (n : Nat) : List ℚ :=
  (List.range n).map (fun i : Nat => (i : ℚ))

/-- The `numerator` of the slope: `sum((x_i - x_mean) * (y_i - y_mean))`. -/
def trendNumerator (values : List ℚ) : ℚ :=
  (((indexVals values.length).zip values).map
    (fun p => (p.1 - (indexVals values.length).sum / (values.length : ℚ)) *
      (p.2 - values.sum / (values.length : ℚ)))).sum

/-- The `denominator` of the slope: `sum((x_i - x_mean)^2)`. -/
def trendDenominator (values : List ℚ) : ℚ :=
  ((indexVals values.length).map
    (fun x => (x - (indexVals values.length).sum / (values.length : ℚ)) ^ 2)).sum

/-- `calculate_trend`: 0 below three points, else the OLS slope of the
values against indices `0, 1, ..., n-1` (with a guard for a zero
denominator). -/
def calculate_trend (values : List ℚ) : ℚ :=
  if values.length < 3 then 0
  else if trendDenominator values = 0 then 0
  else trendNumerator values / trendDenominator values

/-- The `metrics` block of the trend result (as computed; the JSON output
additionally rounds each value to 2 decimals for display). -/
structure TrendMetrics where
  overall_variance : ℚ
  left_ear_variance : ℚ
  right_ear_variance : ℚ
  interaural_variance : ℚ
  overall_trend_slope : ℚ
  interaural_trend_slope : ℚ
deriving DecidableEq, Repr

structure TrendResult where
  classification : String
  description : String
  metrics : TrendMetrics
  sessions_analyzed : Nat
deriving DecidableEq, Repr

/-- `overall_avgs`, per session. -/
def overall_avgs (ms : List SessionMetric) : List ℚ :=
  ms.map overall_avg

/-- `left_avgs`, per session. -/
def left_avgs (ms : List SessionMetric) : List ℚ :=
  ms.map (fun s => s.left_avg)

/-- `right_avgs`, per session. -/
def right_avgs (ms : List SessionMetric) : List ℚ :=
  ms.map (fun s => s.right_avg)

/-- `interaural_maxes`, per session. -/
def interaural_maxes (ms : List SessionMetric) : List ℚ :=
  ms.map (fun s => s.max_interaural_diff)

/-- `max_variance = max(overall_variance, left_variance, right_variance)`. -/
def max_variance (ms : List SessionMetric) : ℚ :=
  max (calculate_variance (overall_avgs ms))
    (max (calculate_variance (left_avgs ms)) (calculate_variance (right_avgs ms)))

/-- `significant_trend = abs(overall_trend) > trend_threshold or
abs(interaural_trend) > 1.0` with `trend_threshold = 2.0`. -/
def significant_trend (ms : List SessionMetric) : Bool :=
  decide ((2 : ℚ) < |calculate_trend (overall_avgs ms)|) ||
    decide ((1 : ℚ) < |calculate_trend (interaural_maxes ms)|)

/-- The `(classification, description)` cascade: stable, then variable
(variance bound relaxed to 100), otherwise changing with a direction
mentioned exactly when the trend is significant. -/
def classification_description (ms : List SessionMetric) : String × String :=
  if max_variance ms ≤ 25 ∧ significant_trend ms = false then
    ("stable", "Consistent measurements across sessions")
  else if max_variance ms ≤ 100 ∧ significant_trend ms = false then
    ("variable", "Normal fluctuation in measurements")
  else
    ("changing",
      if significant_trend ms then
        (if 0 < calculate_trend (overall_avgs ms) then "Notable variation with increasing trend"
         else "Notable variation with decreasing trend")
      else "High variation in measurements")

/-- The classification core of `analyze_session_trends`, taking the
timestamp-ordered session metrics (the DB grouping upstream is out of
scope); fewer than 2 complete sessions yield the `insufficient_data`
return.  The metrics are reported as computed (the JSON layer additionally
rounds them to 2 decimals for display). -/
def analyze_session_trends (session_metrics : List SessionMetric) : Except String TrendResult :=
  if session_metrics.length < 2 then .error "insufficient_data"
  else
    .ok
      { classification := (classification_description session_metrics).1,
        description := (classification_description session_metrics).2,
        metrics :=
          { overall_variance := calculate_variance (overall_avgs session_metrics),
            left_ear_variance := calculate_variance (left_avgs session_metrics),
            right_ear_variance := calculate_variance (right_avgs session_metrics),
            interaural_variance := calculate_variance (interaural_maxes session_metrics),
            overall_trend_slope := calculate_trend (overall_avgs session_metrics),
            interaural_trend_slope := calculate_trend (interaural_maxes session_metrics) },
        sessions_analyzed := session_metrics.length }

/-! ## Spec-side characterizations used in the theorem statements -/

/-- Level `l` occurs in the trial list. -/
def occursIn (rs : List Trial) (l : Int) : Prop :=
  ∃ r ∈ rs, r.level = l

/-- The exact hit rate `yes / total` at level `l`, as a rational. -/
def hitRate (rs : List Trial) (l : Int) : ℚ :=
  (heardAt rs l : ℚ) / (countAt rs l : ℚ)

/-- Level `l` occurs and its hit rate is at least one half. -/
def goodLevel (rs : List Trial) (l : Int) : Prop :=
  occursIn rs l ∧ 1 / 2 ≤ hitRate rs l

/-- Some heard response was recorded at level `l`. -/
def heardIn (rs : List Trial) (l : Int) : Prop :=
  ∃ r ∈ rs, r.level = l ∧ r.heard = true

/-- A level reachable by the staircase: a multiple of 5 in [-10, 40]. -/
def levelOK (l : Int) : Prop :=
  -10 ≤ l ∧ l ≤ 40 ∧ 5 ∣ l

/-- The value the aggregation reads for a frequency: the stored threshold,
or the 40 dB default when the entry is missing. -/
def defaultedValue (m : ThresholdMap) (f : Int) : ℚ :=
  (((mapGet m f).getD 40 : Int) : ℚ)

end AuroHear

namespace AuroHear

/-! ## Basic list and map lemmas -/

theorem int_min?_eq_some_iff {xs : List Int} {a : Int} :
    xs.min? = some a ↔ a ∈ xs ∧ ∀ b ∈ xs, a ≤ b := by
  have inst : Std.Antisymm (fun (x1 x2 : Int) => x1 ≤ x2) :=
    ⟨by intro x y h h2; exact le_antisymm h h2⟩
  exact List.min?_eq_some_iff (fun a => le_refl a) (fun a b => min_choice a b)
    (fun a b c => le_min_iff)

theorem countAt_pos_iff (rs : List Trial) (l : Int) :
    0 < countAt rs l ↔ occursIn rs l := by
  unfold countAt occursIn
  rw [← List.countP_eq_length_filter, List.countP_pos_iff]
  simp

theorem heardAt_pos_iff (rs : List Trial) (l : Int) :
    0 < heardAt rs l ↔ heardIn rs l := by
  unfold heardAt heardIn
  rw [← List.countP_eq_length_filter, List.countP_pos_iff]
  simp

theorem mem_levelsOf {rs : List Trial} {l : Int} :
    l ∈ levelsOf rs ↔ occursIn rs l := by
  simp [levelsOf, occursIn, List.mem_dedup]

theorem heardAt_le_countAt (rs : List Trial) (l : Int) :
    heardAt rs l ≤ countAt rs l := by
  unfold heardAt countAt
  rw [← List.countP_eq_length_filter, ← List.countP_eq_length_filter]
  apply List.countP_mono_left
  intro r _ h
  exact (Bool.and_elim_left h)

theorem isCandidateLevel_iff_hitRate {rs : List Trial} {l : Int}
    (h : 0 < countAt rs l) :
    isCandidateLevel rs l = true ↔ 1 / 2 ≤ hitRate rs l := by
  unfold isCandidateLevel hitRate
  rw [decide_eq_true_iff]
  have hc : (0 : ℚ) < (countAt rs l : ℚ) := by exact_mod_cast h
  rw [le_div_iff₀ hc]
  constructor
  · intro h2
    have h3 : (countAt rs l : ℚ) ≤ 2 * (heardAt rs l : ℚ) := by exact_mod_cast h2
    linarith
  · intro h2
    have h3 : (countAt rs l : ℚ) ≤ 2 * (heardAt rs l : ℚ) := by linarith
    exact_mod_cast h3

theorem goodLevel_heardIn {rs : List Trial} {l : Int} (h : goodLevel rs l) :
    heardIn rs l := by
  rcases h with ⟨hocc, hrate⟩
  rw [← heardAt_pos_iff]
  rcases Nat.eq_zero_or_pos (heardAt rs l) with h0 | hpos
  · exfalso
    unfold hitRate at hrate
    rw [h0] at hrate
    have hc : (0 : ℚ) < (countAt rs l : ℚ) := by
      exact_mod_cast (countAt_pos_iff rs l).mpr hocc
    rw [Nat.cast_zero, zero_div] at hrate
    linarith
  · exact hpos

theorem mem_candidates_iff_good {rs : List Trial} {l : Int} :
    l ∈ (levelsOf rs).filter (fun l => isCandidateLevel rs l) ↔ goodLevel rs l := by
  rw [List.mem_filter, mem_levelsOf]
  constructor
  · rintro ⟨hocc, hcand⟩
    exact ⟨hocc, (isCandidateLevel_iff_hitRate ((countAt_pos_iff rs l).mpr hocc)).mp hcand⟩
  · rintro ⟨hocc, hrate⟩
    exact ⟨hocc, (isCandidateLevel_iff_hitRate ((countAt_pos_iff rs l).mpr hocc)).mpr hrate⟩

theorem mem_heardlist_iff {rs : List Trial} {l : Int} :
    l ∈ (levelsOf rs).filter (fun l => decide (0 < heardAt rs l)) ↔ heardIn rs l := by
  rw [List.mem_filter, mem_levelsOf, decide_eq_true_iff, heardAt_pos_iff]
  constructor
  · exact fun h => h.2
  · intro h
    rcases h with ⟨r, hr, hl, hh⟩
    exact ⟨⟨r, hr, hl⟩, ⟨r, hr, hl, hh⟩⟩

/-- Case analysis of `compute_threshold`, matching the source's cascade. -/
theorem compute_threshold_cases (rs : List Trial) :
    (rs = [] ∧ compute_threshold rs = 40)
  ∨ (rs ≠ [] ∧ IsLeast {l : Int | goodLevel rs l} (compute_threshold rs))
  ∨ (rs ≠ [] ∧ (¬ ∃ l, goodLevel rs l) ∧
      IsLeast {l : Int | heardIn rs l} (compute_threshold rs))
  ∨ (rs ≠ [] ∧ (¬ ∃ l, goodLevel rs l) ∧ (¬ ∃ l, heardIn rs l) ∧
      compute_threshold rs = 40) := by
  by_cases hrs : rs = []
  · subst hrs
    exact Or.inl ⟨rfl, rfl⟩
  · right
    unfold compute_threshold
    rw [if_neg (by simpa using hrs)]
    split
    case _ m hmin =>
      left
      obtain ⟨hmem, hlb⟩ := int_min?_eq_some_iff.mp hmin
      refine ⟨hrs, mem_candidates_iff_good.mp hmem, ?_⟩
      intro b hb
      exact hlb b (mem_candidates_iff_good.mpr hb)
    case _ hmin =>
      have hnogood : ¬ ∃ l, goodLevel rs l := by
        rw [List.min?_eq_none_iff] at hmin
        rintro ⟨l, hl⟩
        have := mem_candidates_iff_good.mpr hl
        rw [hmin] at this
        exact (List.not_mem_nil l) this
      split
      case _ m hmin2 =>
        right; left
        obtain ⟨hmem, hlb⟩ := int_min?_eq_some_iff.mp hmin2
        refine ⟨hrs, hnogood, mem_heardlist_iff.mp hmem, ?_⟩
        intro b hb
        exact hlb b (mem_heardlist_iff.mpr hb)
      case _ hmin2 =>
        right; right
        have hnoheard : ¬ ∃ l, heardIn rs l := by
          rw [List.min?_eq_none_iff] at hmin2
          rintro ⟨l, hl⟩
          have := mem_heardlist_iff.mpr hl
          rw [hmin2] at this
          exact (List.not_mem_nil l) this
        exact ⟨hrs, hnogood, hnoheard, rfl⟩

/-- The estimate is 40 or a level occurring in the input. -/
theorem compute_threshold_range (rs : List Trial) :
    compute_threshold rs = 40 ∨ occursIn rs (compute_threshold rs) := by
  rcases compute_threshold_cases rs with ⟨_, h⟩ | ⟨_, h⟩ | ⟨_, _, h⟩ | ⟨_, _, _, h⟩
  · exact Or.inl h
  · exact Or.inr h.1.1
  · rcases h.1 with ⟨r, hr, hl, _⟩
    exact Or.inr ⟨r, hr, hl⟩
  · exact Or.inl h

/-! ## Claim C1: the staircase step -/

/-- C1: a single submit on an in-progress run with pre-update level `L`
appends the trial `{level: L, heard}` (the pre-update level), increments
`trial_count` by 1, sets the new level to `max(-10, L - 10)` when heard and
`min(40, L + 5)` when not heard, and reports termination exactly when
(heard and the new level equals `L`) or the updated trial count reaches
`max_trials = 12`. -/
theorem claim_C1_staircase_step (ct : CurrentTest) (heard : Bool)
    (hmax : ct.max_trials = 12) :
    (stepTest ct heard).responses =
      ct.responses ++ [{ level := ct.current_level, heard := heard }]
  ∧ (stepTest ct heard).trial_count = ct.trial_count + 1
  ∧ (stepTest ct heard).current_level =
      (if heard then max (-10) (ct.current_level - 10) else min 40 (ct.current_level + 5))
  ∧ (runTerminated ct heard = true ↔
      ((heard = true ∧ (stepTest ct heard).current_level = ct.current_level)
        ∨ 12 ≤ ct.trial_count + 1)) := by
  refine ⟨rfl, rfl, rfl, ?_⟩
  unfold runTerminated
  rw [hmax]
  simp [stepTest, Bool.or_eq_true, Bool.and_eq_true]

/-- Witness for C1 at the initial run of the 1000 Hz right-ear pair. -/
theorem claim_C1_staircase_step_witness :
    (stepTest (initTest (1000, Ear.right)) true).responses =
      (initTest (1000, Ear.right)).responses ++
        [{ level := (initTest (1000, Ear.right)).current_level, heard := true }] :=
  (claim_C1_staircase_step (initTest (1000, Ear.right)) true rfl).1

/-! ## Claim C2: the threshold estimator -/

/-- C2: `compute_threshold` returns 40 on the empty list; otherwise the
least level whose hit rate is at least 0.5 when one exists; otherwise the
least level with at least one heard response when one exists; otherwise 40.
Consequently the result is always 40 or a level occurring in the input. -/
theorem claim_C2_threshold_estimate (rs : List Trial) :
    (rs = [] → compute_threshold rs = 40)
  ∧ ((∃ l, goodLevel rs l) → IsLeast {l : Int | goodLevel rs l} (compute_threshold rs))
  ∧ ((¬ ∃ l, goodLevel rs l) → (∃ l, heardIn rs l) →
      IsLeast {l : Int | heardIn rs l} (compute_threshold rs))
  ∧ ((¬ ∃ l, heardIn rs l) → compute_threshold rs = 40)
  ∧ (compute_threshold rs = 40 ∨ occursIn rs (compute_threshold rs)) := by
  refine ⟨?_, ?_, ?_, ?_, compute_threshold_range rs⟩
  · intro h
    subst h
    rfl
  · intro hex
    rcases compute_threshold_cases rs with ⟨he, _⟩ | ⟨_, h⟩ | ⟨_, hng, _⟩ | ⟨_, hng, _, _⟩
    · exfalso
      rcases hex with ⟨l, hl⟩
      rcases hl.1 with ⟨r, hr, _⟩
      rw [he] at hr
      exact (List.not_mem_nil r) hr
    · exact h
    · exact absurd hex hng
    · exact absurd hex hng
  · intro hng hex
    rcases compute_threshold_cases rs with ⟨he, _⟩ | ⟨_, h⟩ | ⟨_, _, h⟩ | ⟨_, _, hnh, _⟩
    · exfalso
      rcases hex with ⟨l, r, hr, _⟩
      rw [he] at hr
      exact (List.not_mem_nil r) hr
    · exact absurd ⟨_, h.1⟩ hng
    · exact h
    · exact absurd hex hnh
  · intro hnh
    rcases compute_threshold_cases rs with ⟨_, h⟩ | ⟨_, h⟩ | ⟨_, _, h⟩ | ⟨_, _, _, h⟩
    · exact h
    · exact absurd ⟨_, goodLevel_heardIn h.1⟩ hnh
    · exact absurd ⟨_, h.1⟩ hnh
    · exact h

/-- Witness for C2 at the empty response list. -/
theorem claim_C2_threshold_estimate_witness : compute_threshold [] = 40 :=
  (claim_C2_threshold_estimate []).1 rfl

/-! ## Dict-model lemmas -/

theorem mapGet_mapSet_self (m : ThresholdMap) (k v : Int) :
    mapGet (mapSet m k v) k = some v := by
  induction m with
  | nil => simp [mapSet, mapGet]
  | cons p ps ih =>
    by_cases h : p.1 = k
    · simp [mapSet, h, mapGet]
    · simp [mapSet, h, mapGet, ih]

theorem mapGet_mapSet_ne (m : ThresholdMap) {k k' : Int} (v : Int) (h : k' ≠ k) :
    mapGet (mapSet m k v) k' = mapGet m k' := by
  induction m with
  | nil => simp [mapSet, mapGet, Ne.symm h]
  | cons p ps ih =>
    by_cases h2 : p.1 = k
    · simp [mapSet, h2, mapGet, Ne.symm h]
    · simp [mapSet, h2, mapGet, ih]

theorem isSome_mapGet_mapSet (m : ThresholdMap) (k v k' : Int)
    (h : (mapGet m k').isSome = true) :
    (mapGet (mapSet m k v) k').isSome = true := by
  by_cases h2 : k' = k
  · subst h2
    rw [mapGet_mapSet_self]
    rfl
  · rw [mapGet_mapSet_ne m v h2]
    exact h

theorem mem_mapSet {m : ThresholdMap} {k v : Int} {p : Int × Int}
    (h : p ∈ mapSet m k v) : p = (k, v) ∨ p ∈ m := by
  induction m with
  | nil => simpa [mapSet] using h
  | cons q ps ih =>
    by_cases h2 : q.1 = k
    · simp only [mapSet, if_pos h2, List.mem_cons] at h
      rcases h with h | h
      · exact Or.inl h
      · exact Or.inr (List.mem_cons_of_mem q h)
    · simp only [mapSet, if_neg h2, List.mem_cons] at h
      rcases h with h | h
      · exact Or.inr (by simp [h])
      · rcases ih h with h3 | h3
        · exact Or.inl h3
        · exact Or.inr (List.mem_cons_of_mem q h3)

/-! ## Level-range lemmas -/

theorem levelOK_40 : levelOK 40 := by
  refine ⟨by omega, by omega, by omega⟩

theorem levelOK_stepLevel {l : Int} (heard : Bool) (h : levelOK l) :
    levelOK (stepLevel heard l) := by
  obtain ⟨h1, h2, h3⟩ := h
  unfold stepLevel levelOK
  cases heard
  · rw [if_neg (by simp)]
    rcases min_choice (40 : Int) (l + 5) with h4 | h4 <;> rw [h4] <;>
      exact ⟨by omega, by omega, by omega⟩
  · rw [if_pos rfl]
    rcases max_choice (-10 : Int) (l - 10) with h4 | h4 <;> rw [h4] <;>
      exact ⟨by omega, by omega, by omega⟩

theorem levelOK_compute_threshold {rs : List Trial}
    (h : ∀ r ∈ rs, levelOK r.level) : levelOK (compute_threshold rs) := by
  rcases compute_threshold_range rs with h2 | h2
  · rw [h2]
    exact levelOK_40
  · rcases h2 with ⟨r, hr, hl⟩
    rw [← hl]
    exact h r hr

/-! ## setThreshold projection lemmas -/

theorem setThreshold_total (ts : TestState) (e : Ear) (f v : Int) :
    (setThreshold ts e f v).total_tests = ts.total_tests := by
  cases e <;> rfl

theorem setThreshold_seq (ts : TestState) (e : Ear) (f v : Int) :
    (setThreshold ts e f v).test_sequence = ts.test_sequence := by
  cases e <;> rfl

theorem setThreshold_index (ts : TestState) (e : Ear) (f v : Int) :
    (setThreshold ts e f v).current_test_index = ts.current_test_index := by
  cases e <;> rfl

theorem setThreshold_current (ts : TestState) (e : Ear) (f v : Int) :
    (setThreshold ts e f v).current_test = ts.current_test := by
  cases e <;> rfl

theorem thresholdsFor_setThreshold (ts : TestState) (e e' : Ear) (f v : Int) :
    thresholdsFor (setThreshold ts e f v) e' =
      if e' = e then mapSet (thresholdsFor ts e) f v else thresholdsFor ts e' := by
  cases e <;> cases e' <;> simp [setThreshold, thresholdsFor]

/-! ## The reachable-state invariant of the session machine -/

/-- Invariant of every state reachable from `start_test` by submits:
the fixed sequence and bounds, the active run's agreement with the cursor,
recorded thresholds for every passed pair, and the level ranges. -/
def Inv (ts : TestState) : Prop :=
  ts.total_tests = 12 ∧
  ts.test_sequence = test_sequence ∧
  ts.current_test.max_trials = 12 ∧
  (ts.current_test_index < 12 → ts.current_test.trial_count ≤ 11) ∧
  (ts.current_test_index < 12 →
    (ts.current_test.frequency, ts.current_test.ear) =
      test_sequence.getD ts.current_test_index (0, Ear.right)) ∧
  (∀ i, i < ts.current_test_index → i < 12 →
    (mapGet (thresholdsFor ts (test_sequence.getD i (0, Ear.right)).2)
      (test_sequence.getD i (0, Ear.right)).1).isSome = true) ∧
  levelOK ts.current_test.current_level ∧
  (∀ r ∈ ts.current_test.responses, levelOK r.level) ∧
  (∀ p ∈ ts.thresholdsLeft, levelOK p.2) ∧
  (∀ p ∈ ts.thresholdsRight, levelOK p.2)

theorem Inv_start : Inv start_test := by
  refine ⟨by decide, rfl, rfl, fun _ => by decide, fun _ => by decide,
    fun i hi _ => absurd hi (by simp [start_test]), levelOK_40,
    fun r hr => absurd hr (by simp [start_test, initTest]),
    fun p hp => absurd hp (by simp [start_test]),
    fun p hp => absurd hp (by simp [start_test])⟩

theorem Inv_submit {ts : TestState} (h : Inv ts) (b : Bool) :
    Inv (submit_response ts b) := by
  obtain ⟨htot, hseq, hmax, htc, hpair, hrec, hlev, hresp, hleft, hright⟩ := h
  have hstep_resp : ∀ r ∈ (stepTest ts.current_test b).responses, levelOK r.level := by
    intro r hr
    simp only [stepTest, List.mem_append, List.mem_singleton] at hr
    rcases hr with hr | hr
    · exact hresp r hr
    · rw [hr]
      exact hlev
  have hthr : levelOK (compute_threshold (stepTest ts.current_test b).responses) :=
    levelOK_compute_threshold hstep_resp
  unfold submit_response
  split
  case isTrue hterm =>
    cases hear : ts.current_test.ear
    case left =>
      simp only [setThreshold]
      refine ⟨htot, hseq, ?_, ?_, ?_, ?_, ?_, ?_, ?_, hright⟩
      · dsimp only
        split
        · rfl
        · simpa [stepTest] using hmax
      · intro hidx
        dsimp only at hidx ⊢
        rw [if_pos (by omega)]
        simp [initTest]
      · intro hidx
        dsimp only at hidx ⊢
        rw [if_pos (by omega), hseq]
        simp [initTest]
      · intro i hi hi12
        dsimp only at hi ⊢
        rcases Nat.lt_or_ge i ts.current_test_index with hlt2 | hge
        · have hold := hrec i hlt2 hi12
          cases hpe : (test_sequence.getD i (0, Ear.right)).2
          case left =>
            rw [hpe] at hold
            simp only [thresholdsFor] at hold ⊢
            exact isSome_mapGet_mapSet _ _ _ _ hold
          case right =>
            rw [hpe] at hold
            simpa only [thresholdsFor] using hold
        · have hieq : i = ts.current_test_index := by omega
          have hidx12 : ts.current_test_index < 12 := by omega
          have hp := hpair hidx12
          rw [hieq, ← hp, hear]
          simp only [thresholdsFor]
          rw [mapGet_mapSet_self]
          rfl
      · dsimp only
        split
        · exact levelOK_40
        · exact levelOK_stepLevel b hlev
      · dsimp only
        split
        · intro r hr
          exact absurd hr (by simp [initTest])
        · exact hstep_resp
      · intro p hp
        dsimp only at hp
        rcases mem_mapSet hp with h2 | h2
        · rw [h2]
          exact hthr
        · exact hleft p h2
    case right =>
      simp only [setThreshold]
      refine ⟨htot, hseq, ?_, ?_, ?_, ?_, ?_, ?_, hleft, ?_⟩
      · dsimp only
        split
        · rfl
        · simpa [stepTest] using hmax
      · intro hidx
        dsimp only at hidx ⊢
        rw [if_pos (by omega)]
        simp [initTest]
      · intro hidx
        dsimp only at hidx ⊢
        rw [if_pos (by omega), hseq]
        simp [initTest]
      · intro i hi hi12
        dsimp only at hi ⊢
        rcases Nat.lt_or_ge i ts.current_test_index with hlt2 | hge
        · have hold := hrec i hlt2 hi12
          cases hpe : (test_sequence.getD i (0, Ear.right)).2
          case left =>
            rw [hpe] at hold
            simpa only [thresholdsFor] using hold
          case right =>
            rw [hpe] at hold
            simp only [thresholdsFor] at hold ⊢
            exact isSome_mapGet_mapSet _ _ _ _ hold
        · have hieq : i = ts.current_test_index := by omega
          have hidx12 : ts.current_test_index < 12 := by omega
          have hp := hpair hidx12
          rw [hieq, ← hp, hear]
          simp only [thresholdsFor]
          rw [mapGet_mapSet_self]
          rfl
      · dsimp only
        split
        · exact levelOK_40
        · exact levelOK_stepLevel b hlev
      · dsimp only
        split
        · intro r hr
          exact absurd hr (by simp [initTest])
        · exact hstep_resp
      · intro p hp
        dsimp only at hp
        rcases mem_mapSet hp with h2 | h2
        · rw [h2]
          exact hthr
        · exact hright p h2
  case isFalse hterm =>
    refine ⟨htot, hseq, by simpa [stepTest] using hmax, ?_, ?_, hrec,
      levelOK_stepLevel b hlev, hstep_resp, hleft, hright⟩
    · intro hidx
      simp only [runTerminated, Bool.or_eq_true, decide_eq_true_eq, not_or,
        hmax, stepTest] at hterm
      simp only [stepTest]
      omega
    · intro hidx
      simpa [stepTest] using hpair hidx

theorem Inv_steps (bs : List Bool) : ∀ ts : TestState, Inv ts → Inv (steps ts bs) := by
  induction bs with
  | nil => exact fun ts h => h
  | cons b bs ih => exact fun ts h => ih (submit_response ts b) (Inv_submit h b)

theorem Inv_reachable (bs : List Bool) : Inv (steps start_test bs) :=
  Inv_steps bs start_test Inv_start

/-- In a completed reachable state every expected frequency has a recorded
threshold in both ear maps. -/
theorem completed_maps_full {ts : TestState} (hInv : Inv ts) (hc : completed ts) :
    (∀ f ∈ test_frequencies, (mapGet ts.thresholdsLeft f).isSome = true) ∧
    (∀ f ∈ test_frequencies, (mapGet ts.thresholdsRight f).isSome = true) := by
  obtain ⟨htot, _, _, _, _, hrec, _, _, _, _⟩ := hInv
  have hidx : 12 ≤ ts.current_test_index := by
    unfold completed at hc
    omega
  have get1 : ∀ (i : Nat) (f : Int) (e : Ear),
      test_sequence.getD i (0, Ear.right) = (f, e) → i < 12 →
      (mapGet (thresholdsFor ts e) f).isSome = true := by
    intro i f e he hi
    have h2 := hrec i (by omega) hi
    rw [he] at h2
    exact h2
  constructor
  · intro f hf
    simp only [test_frequencies, List.mem_cons, List.not_mem_nil, or_false] at hf
    rcases hf with rfl | rfl | rfl | rfl | rfl | rfl
    · exact get1 1 5000 Ear.left (by decide) (by omega)
    · exact get1 3 4000 Ear.left (by decide) (by omega)
    · exact get1 5 2000 Ear.left (by decide) (by omega)
    · exact get1 7 1000 Ear.left (by decide) (by omega)
    · exact get1 9 500 Ear.left (by decide) (by omega)
    · exact get1 11 250 Ear.left (by decide) (by omega)
  · intro f hf
    simp only [test_frequencies, List.mem_cons, List.not_mem_nil, or_false] at hf
    rcases hf with rfl | rfl | rfl | rfl | rfl | rfl
    · exact get1 0 5000 Ear.right (by decide) (by omega)
    · exact get1 2 4000 Ear.right (by decide) (by omega)
    · exact get1 4 2000 Ear.right (by decide) (by omega)
    · exact get1 6 1000 Ear.right (by decide) (by omega)
    · exact get1 8 500 Ear.right (by decide) (by omega)
    · exact get1 10 250 Ear.right (by decide) (by omega)

theorem foldl_subst_skip (L : List Int) (m : ThresholdMap)
    (h : ∀ f ∈ L, (mapGet m f).isSome = true) :
    L.foldl (fun acc f => if (mapGet acc f).isSome then acc else mapSet acc f 40) m = m := by
  induction L generalizing m with
  | nil => rfl
  | cons g L ih =>
    simp only [List.foldl_cons]
    rw [if_pos (h g (by simp))]
    exact ih m (fun f hf => h f (by simp [hf]))

/-- The substitution loop leaves a map with all expected keys untouched. -/
theorem substituteDefaults_id {m : ThresholdMap}
    (h : ∀ f ∈ test_frequencies, (mapGet m f).isSome = true) :
    substituteDefaults m = m := by
  unfold substituteDefaults
  exact foldl_subst_skip test_frequencies m h

/-! ## Claim C3: session sequencing and termination -/

/-- C3: the fixed sequence is the 12 pairs with frequencies descending
5000→250 and ear right-then-left; every run starts at level 40 with no
trials; while a session is not completed the active run has at most 11
recorded trials (so a 12th trial always terminates it); the session is
completed exactly when the cursor has reached 12; and a completed session
has recorded a threshold for every one of the 12 pairs. -/
theorem claim_C3_session_sequencing :
    test_sequence = [(5000, Ear.right), (5000, Ear.left), (4000, Ear.right), (4000, Ear.left),
      (2000, Ear.right), (2000, Ear.left), (1000, Ear.right), (1000, Ear.left),
      (500, Ear.right), (500, Ear.left), (250, Ear.right), (250, Ear.left)]
  ∧ start_test.total_tests = 12
  ∧ start_test.current_test = initTest (5000, Ear.right)
  ∧ (∀ fe : Int × Ear, (initTest fe).current_level = 40 ∧ (initTest fe).responses = []
      ∧ (initTest fe).trial_count = 0 ∧ (initTest fe).max_trials = 12)
  ∧ (∀ bs : List Bool, ¬ completed (steps start_test bs) →
      (steps start_test bs).current_test.trial_count ≤ 11)
  ∧ (∀ bs : List Bool, completed (steps start_test bs) ↔
      12 ≤ (steps start_test bs).current_test_index)
  ∧ (∀ bs : List Bool, completed (steps start_test bs) → ∀ i : Nat, i < 12 →
      (mapGet (thresholdsFor (steps start_test bs) (test_sequence.getD i (0, Ear.right)).2)
        (test_sequence.getD i (0, Ear.right)).1).isSome = true) := by
  refine ⟨by decide, by decide, by decide, fun fe => ⟨rfl, rfl, rfl, rfl⟩, ?_, ?_, ?_⟩
  · intro bs hnc
    obtain ⟨htot, _, _, htc, _⟩ := Inv_reachable bs
    apply htc
    unfold completed at hnc
    omega
  · intro bs
    obtain ⟨htot, _⟩ := Inv_reachable bs
    unfold completed
    rw [htot]
  · intro bs hc i hi
    obtain ⟨htot, _, _, _, _, hrec, _⟩ := Inv_reachable bs
    unfold completed at hc
    exact hrec i (by omega) hi

set_option maxRecDepth 10000 in
/-- Witness for C3: a full session of always-heard responses (each run takes
6 trials) completes after 72 submits, with the last pair recorded. -/
theorem claim_C3_session_sequencing_witness :
    completed (steps start_test (List.replicate 72 true)) ∧
    (mapGet (thresholdsFor (steps start_test (List.replicate 72 true))
        (test_sequence.getD 11 (0, Ear.right)).2)
      (test_sequence.getD 11 (0, Ear.right)).1).isSome = true := by
  have hc : completed (steps start_test (List.replicate 72 true)) :=
    (claim_C3_session_sequencing.2.2.2.2.2.1 (List.replicate 72 true)).mpr (by decide)
  exact ⟨hc, claim_C3_session_sequencing.2.2.2.2.2.2 (List.replicate 72 true) hc 11 (by decide)⟩

/-! ## Claim C5: the 40 dB default is aggregation-time only -/

/-- C5: on every reachable completed session the threshold maps already
contain all 12 measured entries, so the substitution loop in the completion
branch of `next_test` changes nothing: the persisted rows equal exactly the
measured (ear, frequency, threshold) values and the stored state (whose
threshold map `next_test` does not rewrite) is returned unchanged. -/
theorem claim_C5_no_retroactive_defaults (bs : List Bool)
    (hc : completed (steps start_test bs)) :
    substituteDefaults (steps start_test bs).thresholdsLeft =
      (steps start_test bs).thresholdsLeft
  ∧ substituteDefaults (steps start_test bs).thresholdsRight =
      (steps start_test bs).thresholdsRight
  ∧ (next_test_completed (steps start_test bs)).rows =
      sessionRows (steps start_test bs).thresholdsLeft (steps start_test bs).thresholdsRight
  ∧ (next_test_completed (steps start_test bs)).stored = steps start_test bs := by
  obtain ⟨hl, hr⟩ := completed_maps_full (Inv_reachable bs) hc
  have h1 := substituteDefaults_id hl
  have h2 := substituteDefaults_id hr
  refine ⟨h1, h2, ?_, rfl⟩
  show sessionRows (substituteDefaults (steps start_test bs).thresholdsLeft)
      (substituteDefaults (steps start_test bs).thresholdsRight) = _
  rw [h1, h2]

set_option maxRecDepth 10000 in
/-- Witness for C5 at the completed all-heard session. -/
theorem claim_C5_no_retroactive_defaults_witness :
    substituteDefaults (steps start_test (List.replicate 72 true)).thresholdsLeft =
      (steps start_test (List.replicate 72 true)).thresholdsLeft :=
  (claim_C5_no_retroactive_defaults (List.replicate 72 true) (by decide)).1

/-! ## Claim C10: the level grid invariant -/

/-- C10: in every reachable state the active run's level, every recorded
trial level, and every stored threshold (hence every estimate of an actual
run, 40 included) is a multiple of 5 in [-10, 40]. -/
theorem claim_C10_level_grid (bs : List Bool) :
    levelOK (steps start_test bs).current_test.current_level
  ∧ (∀ r ∈ (steps start_test bs).current_test.responses, levelOK r.level)
  ∧ (∀ p ∈ (steps start_test bs).thresholdsLeft, levelOK p.2)
  ∧ (∀ p ∈ (steps start_test bs).thresholdsRight, levelOK p.2) := by
  obtain ⟨_, _, _, _, _, _, hlev, hresp, hml, hmr⟩ := Inv_reachable bs
  exact ⟨hlev, hresp, hml, hmr⟩

set_option maxRecDepth 10000 in
/-- Witness for C10: the first recorded trial of a session. -/
theorem claim_C10_level_grid_witness :
    levelOK ({ level := 40, heard := true } : Trial).level :=
  (claim_C10_level_grid [true]).2.1 { level := 40, heard := true } (by decide)

/-! ## Claim C7: submits on Idle and Completed sessions -/

set_option maxRecDepth 10000 in
/-- Counterexample to C7: after a session completes (the all-heard session
finishes its 12 runs after 72 submits and the cursor reaches 12), a further
submit is NOT rejected: it returns ok, appends a trial to the stale final
run, and pushes the cursor to 13. -/
theorem claim_C7_counterexample :
    completed (steps start_test (List.replicate 72 true))
  ∧ submit (some (steps start_test (List.replicate 72 true))) true
      = SubmitOutcome.ok (submit_response (steps start_test (List.replicate 72 true)) true)
  ∧ (submit_response (steps start_test (List.replicate 72 true)) true).current_test.responses.length
      = (steps start_test (List.replicate 72 true)).current_test.responses.length + 1
  ∧ (submit_response (steps start_test (List.replicate 72 true)) true).current_test_index = 13 := by
  refine ⟨by decide, rfl, by decide, by decide⟩

/-- C7 amended: a submit with no started test (Idle state, no
`current_test`) is rejected with the invalid-state error and nothing is
changed; but a submit on a completed session (cursor at or past 12) is
accepted rather than rejected: it reports success and appends the new trial
to the stale final run. -/
theorem claim_C7_amended_submit_states :
    (∀ heard : Bool, submit none heard =
      SubmitOutcome.invalidState "Invalid test state: no current test")
  ∧ (∀ (bs : List Bool) (heard : Bool), completed (steps start_test bs) →
      submit (some (steps start_test bs)) heard =
        SubmitOutcome.ok (submit_response (steps start_test bs) heard)
      ∧ (submit_response (steps start_test bs) heard).current_test.responses =
          (steps start_test bs).current_test.responses ++
            [{ level := (steps start_test bs).current_test.current_level, heard := heard }]) := by
  refine ⟨fun heard => rfl, ?_⟩
  intro bs heard hc
  unfold completed at hc
  refine ⟨rfl, ?_⟩
  unfold submit_response
  split
  · dsimp only
    rw [if_neg (by omega)]
    rfl
  · rfl

set_option maxRecDepth 10000 in
/-- Witness for the amended C7: the Idle rejection and the accepted
post-completion submit on the all-heard session. -/
theorem claim_C7_amended_submit_states_witness :
    submit (none : Option TestState) true =
      SubmitOutcome.invalidState "Invalid test state: no current test"
  ∧ submit (some (steps start_test (List.replicate 72 true))) true =
      SubmitOutcome.ok (submit_response (steps start_test (List.replicate 72 true)) true) :=
  ⟨claim_C7_amended_submit_states.1 true,
   (claim_C7_amended_submit_states.2 (List.replicate 72 true) true (by decide)).1⟩

/-! ## Python max/min over nonempty lists -/

theorem foldl_max_spec (x : ℚ) (l : List ℚ) :
    l.foldl max x ∈ x :: l ∧ ∀ y ∈ x :: l, y ≤ l.foldl max x := by
  induction l generalizing x with
  | nil => simp
  | cons h t ih =>
    obtain ⟨ihmem, ihb⟩ := ih (max x h)
    constructor
    · rw [List.foldl_cons]
      rcases List.mem_cons.mp ihmem with h2 | h2
      · rw [h2]
        rcases max_choice x h with h3 | h3 <;> rw [h3] <;> simp
      · exact List.mem_cons_of_mem x (List.mem_cons_of_mem h h2)
    · intro y hy
      rw [List.foldl_cons]
      rcases List.mem_cons.mp hy with rfl | hy2
      · exact le_trans (le_max_left _ _) (ihb _ (List.mem_cons_self _ _))
      · rcases List.mem_cons.mp hy2 with rfl | hy3
        · exact le_trans (le_max_right _ _) (ihb _ (List.mem_cons_self _ _))
        · exact ihb y (List.mem_cons_of_mem _ hy3)

theorem foldl_min_spec (x : ℚ) (l : List ℚ) :
    l.foldl min x ∈ x :: l ∧ ∀ y ∈ x :: l, l.foldl min x ≤ y := by
  induction l generalizing x with
  | nil => simp
  | cons h t ih =>
    obtain ⟨ihmem, ihb⟩ := ih (min x h)
    constructor
    · rw [List.foldl_cons]
      rcases List.mem_cons.mp ihmem with h2 | h2
      · rw [h2]
        rcases min_choice x h with h3 | h3 <;> rw [h3] <;> simp
      · exact List.mem_cons_of_mem x (List.mem_cons_of_mem h h2)
    · intro y hy
      rw [List.foldl_cons]
      rcases List.mem_cons.mp hy with rfl | hy2
      · exact le_trans (ihb _ (List.mem_cons_self _ _)) (min_le_left _ _)
      · rcases List.mem_cons.mp hy2 with rfl | hy3
        · exact le_trans (ihb _ (List.mem_cons_self _ _)) (min_le_right _ _)
        · exact ihb y (List.mem_cons_of_mem _ hy3)

theorem pyMax_map_isGreatest {α : Type} (g : α → ℚ) (x : α) (l : List α) :
    IsGreatest {d : ℚ | ∃ a ∈ x :: l, d = g a} (pyMax ((x :: l).map g)) := by
  have h := foldl_max_spec (g x) (l.map g)
  have hmm : pyMax ((x :: l).map g) = (l.map g).foldl max (g x) := rfl
  constructor
  · rw [hmm]
    rcases List.mem_cons.mp h.1 with h2 | h2
    · exact ⟨x, List.mem_cons_self x l, h2⟩
    · obtain ⟨a, ha, hga⟩ := List.mem_map.mp h2
      exact ⟨a, List.mem_cons_of_mem x ha, hga.symm⟩
  · rintro d ⟨a, ha, rfl⟩
    rw [hmm]
    apply h.2
    rcases List.mem_cons.mp ha with rfl | ha2
    · exact List.mem_cons_self _ _
    · exact List.mem_cons_of_mem _ (List.mem_map_of_mem g ha2)

theorem pyMin_map_isLeast {α : Type} (g : α → ℚ) (x : α) (l : List α) :
    IsLeast {d : ℚ | ∃ a ∈ x :: l, d = g a} (pyMin ((x :: l).map g)) := by
  have h := foldl_min_spec (g x) (l.map g)
  have hmm : pyMin ((x :: l).map g) = (l.map g).foldl min (g x) := rfl
  constructor
  · rw [hmm]
    rcases List.mem_cons.mp h.1 with h2 | h2
    · exact ⟨x, List.mem_cons_self x l, h2⟩
    · obtain ⟨a, ha, hga⟩ := List.mem_map.mp h2
      exact ⟨a, List.mem_cons_of_mem x ha, hga.symm⟩
  · rintro d ⟨a, ha, rfl⟩
    rw [hmm]
    apply h.2
    rcases List.mem_cons.mp ha with rfl | ha2
    · exact List.mem_cons_self _ _
    · exact List.mem_cons_of_mem _ (List.mem_map_of_mem g ha2)

/-! ## The substitution loop, pointwise -/

theorem foldl_subst_pres (L : List Int) (m : ThresholdMap) (f : Int)
    (h : (mapGet m f).isSome = true) :
    mapGet (L.foldl (fun acc g => if (mapGet acc g).isSome then acc else mapSet acc g 40) m) f
      = mapGet m f := by
  induction L generalizing m with
  | nil => rfl
  | cons g L ih =>
    simp only [List.foldl_cons]
    by_cases hs : (mapGet m g).isSome = true
    · rw [if_pos hs]
      exact ih m h
    · rw [if_neg hs]
      have hgf : f ≠ g := fun he => hs (he ▸ h)
      rw [ih (mapSet m g 40) (by rw [mapGet_mapSet_ne m 40 hgf]; exact h)]
      exact mapGet_mapSet_ne m 40 hgf

theorem foldl_subst_get (L : List Int) (m : ThresholdMap) (f : Int) (hf : f ∈ L) :
    mapGet (L.foldl (fun acc g => if (mapGet acc g).isSome then acc else mapSet acc g 40) m) f
      = some ((mapGet m f).getD 40) := by
  induction L generalizing m with
  | nil => exact absurd hf (List.not_mem_nil f)
  | cons g L ih =>
    simp only [List.foldl_cons]
    by_cases hgf : f = g
    · subst hgf
      by_cases hs : (mapGet m f).isSome = true
      · rw [if_pos hs, foldl_subst_pres L m f hs]
        obtain ⟨v, hv⟩ := Option.isSome_iff_exists.mp hs
        rw [hv]
        rfl
      · rw [if_neg hs]
        have h2 : mapGet (mapSet m f 40) f = some 40 := mapGet_mapSet_self m f 40
        rw [foldl_subst_pres L (mapSet m f 40) f (by rw [h2]; rfl), h2,
          Option.not_isSome_iff_eq_none.mp hs]
        rfl
    · have hfL : f ∈ L := by
        rcases List.mem_cons.mp hf with h2 | h2
        · exact absurd h2 hgf
        · exact h2
      by_cases hs : (mapGet m g).isSome = true
      · rw [if_pos hs]
        exact ih m hfL
      · rw [if_neg hs, ih (mapSet m g 40) hfL, mapGet_mapSet_ne m 40 hgf]

theorem substituteDefaults_get {m : ThresholdMap} {f : Int} (hf : f ∈ test_frequencies) :
    mapGet (substituteDefaults m) f = some ((mapGet m f).getD 40) := by
  unfold substituteDefaults
  exact foldl_subst_get test_frequencies m f hf

theorem earValues_substituteDefaults (m : ThresholdMap) :
    earValues (substituteDefaults m) = test_frequencies.map (fun f => defaultedValue m f) := by
  unfold earValues
  apply List.map_congr_left
  intro f hf
  rw [substituteDefaults_get hf]
  rfl

/-! ## Claim C4: the completion summary -/

/-- C4: the summary substitutes 40 for each missing entry, averages the 6
defaulted values per ear (unweighted), takes the dissimilarity as the
largest per-frequency |left − right| over the 6 defaulted pairs, and sets
`is_valid` to false exactly when all 12 defaulted values equal 40. -/
theorem claim_C4_session_summary (left right : ThresholdMap) :
    (summarize left right).left_avg =
      (test_frequencies.map (fun f => defaultedValue left f)).sum / 6
  ∧ (summarize left right).right_avg =
      (test_frequencies.map (fun f => defaultedValue right f)).sum / 6
  ∧ IsGreatest {d : ℚ | ∃ f ∈ test_frequencies,
      d = |defaultedValue left f - defaultedValue right f|} (summarize left right).max_diff
  ∧ ((summarize left right).is_valid = false ↔
      ∀ f ∈ test_frequencies, defaultedValue left f = 40 ∧ defaultedValue right f = 40) := by
  have hL := earValues_substituteDefaults left
  have hR := earValues_substituteDefaults right
  unfold summarize summarizeSubst
  dsimp only
  rw [hL, hR]
  refine ⟨?_, ?_, ?_, ?_⟩
  · rw [List.length_map]
    norm_num [test_frequencies]
  · rw [List.length_map]
    norm_num [test_frequencies]
  · rw [List.zip_map', List.map_map]
    exact pyMax_map_isGreatest
      (fun f => |defaultedValue left f - defaultedValue right f|) 5000 [4000, 2000, 1000, 500, 250]
  · rw [Bool.not_eq_false']
    simp only [List.all_append, Bool.and_eq_true, List.all_eq_true, decide_eq_true_eq]
    constructor
    · rintro ⟨h1, h2⟩ f hf
      exact ⟨h1 _ (List.mem_map_of_mem _ hf), h2 _ (List.mem_map_of_mem _ hf)⟩
    · rintro h
      constructor <;> intro v hv <;> obtain ⟨f, hf, rfl⟩ := List.mem_map.mp hv
      · exact (h f hf).1
      · exact (h f hf).2

/-- Witness for C4 at the wholly unmeasured session. -/
theorem claim_C4_session_summary_witness :
    (summarize [] []).is_valid = false :=
  (claim_C4_session_summary [] []).2.2.2.mpr
    (fun f _ => ⟨by simp [defaultedValue, mapGet], by simp [defaultedValue, mapGet]⟩)

/-! ## Claim C6: interaural analysis -/

theorem emGet_isSome_iff {m : EarMap} {f : Int} :
    (emGet m f).isSome = true ↔ ∃ p ∈ m, p.1 = f := by
  induction m with
  | nil => simp [emGet]
  | cons q ps ih =>
    by_cases h : q.1 = f
    · simp [emGet, h]
    · simp [emGet, h, ih]

theorem mem_commonFrequencies {left right : EarMap} {f : Int} :
    f ∈ commonFrequencies left right ↔
      (emGet left f).isSome = true ∧ (emGet right f).isSome = true := by
  unfold commonFrequencies
  rw [List.mem_filter, List.mem_dedup]
  constructor
  · rintro ⟨h1, h2⟩
    refine ⟨?_, h2⟩
    rw [emGet_isSome_iff]
    obtain ⟨p, hp, hpf⟩ := List.mem_map.mp h1
    exact ⟨p, hp, hpf⟩
  · rintro ⟨h1, h2⟩
    refine ⟨?_, h2⟩
    obtain ⟨p, hp, hpf⟩ := emGet_isSome_iff.mp h1
    exact List.mem_map.mpr ⟨p, hp, hpf⟩

/-- C6: on threshold maps with no common measured frequency the analysis is
the explicit insufficient-data outcome (`None`, mapped by the endpoint to
the insufficient-data error) rather than an escaping exception; otherwise
it covers exactly the common frequencies (no default substitution), each
entry carrying |left − right| and left − right, and the summary holds the
max, min and mean of the absolute and the signed differences plus the
count of frequencies compared. -/
theorem claim_C6_interaural_analysis (left right : EarMap) :
    (commonFrequencies left right = [] →
      compute_interaural_differences left right = none ∧
      analyze_interaural_endpoint left right =
        Except.error "Unable to compute differences - insufficient data")
  ∧ (∀ f : Int, f ∈ commonFrequencies left right ↔
      (emGet left f).isSome = true ∧ (emGet right f).isSome = true)
  ∧ (∀ a : InterauralAnalysis, compute_interaural_differences left right = some a →
      (∀ (f : Int) (d : FreqDiff), (f, d) ∈ a.per_frequency →
        f ∈ commonFrequencies left right
        ∧ d.left_threshold = (emGet left f).getD 0
        ∧ d.right_threshold = (emGet right f).getD 0
        ∧ d.absolute_difference = |(emGet left f).getD 0 - (emGet right f).getD 0|
        ∧ d.signed_difference = (emGet left f).getD 0 - (emGet right f).getD 0)
      ∧ (∀ f ∈ commonFrequencies left right,
          (f, interauralEntry left right f) ∈ a.per_frequency)
      ∧ IsGreatest {q : ℚ | ∃ f ∈ commonFrequencies left right,
          q = |(emGet left f).getD 0 - (emGet right f).getD 0|}
          a.summary_stats.max_absolute_difference
      ∧ IsLeast {q : ℚ | ∃ f ∈ commonFrequencies left right,
          q = |(emGet left f).getD 0 - (emGet right f).getD 0|}
          a.summary_stats.min_absolute_difference
      ∧ a.summary_stats.mean_absolute_difference =
          ((commonFrequencies left right).map
            (fun f => |(emGet left f).getD 0 - (emGet right f).getD 0|)).sum /
            ((commonFrequencies left right).length : ℚ)
      ∧ IsGreatest {q : ℚ | ∃ f ∈ commonFrequencies left right,
          q = (emGet left f).getD 0 - (emGet right f).getD 0}
          a.summary_stats.max_signed_difference
      ∧ IsLeast {q : ℚ | ∃ f ∈ commonFrequencies left right,
          q = (emGet left f).getD 0 - (emGet right f).getD 0}
          a.summary_stats.min_signed_difference
      ∧ a.summary_stats.mean_signed_difference =
          ((commonFrequencies left right).map
            (fun f => (emGet left f).getD 0 - (emGet right f).getD 0)).sum /
            ((commonFrequencies left right).length : ℚ)
      ∧ a.summary_stats.frequencies_compared = (commonFrequencies left right).length
      ∧ a.summary_stats.total_frequencies = (commonFrequencies left right).length) := by
  refine ⟨?_, fun f => mem_commonFrequencies, ?_⟩
  · intro hc
    have h1 : compute_interaural_differences left right = none := by
      unfold compute_interaural_differences
      rw [if_pos (by rw [hc]; rfl)]
    refine ⟨h1, ?_⟩
    unfold analyze_interaural_endpoint
    rw [h1]
  · intro a ha
    unfold compute_interaural_differences at ha
    by_cases hc : (commonFrequencies left right).isEmpty
    · rw [if_pos hc] at ha
      exact absurd ha (by simp)
    · rw [if_neg hc] at ha
      rcases Option.some.inj ha with rfl
      simp only [interauralAbsDiffs, interauralSignedDiffs, interauralPerFrequency,
        List.map_map]
      rcases hcf : commonFrequencies left right with _ | ⟨f0, fs⟩
      · rw [hcf] at hc
        exact absurd rfl hc
      · refine ⟨?_, ?_, ?_, ?_, ?_, ?_, ?_, ?_, ?_, ?_⟩
        · intro f d hfd
          obtain ⟨g, hg, heq⟩ := List.mem_map.mp hfd
          injection heq with h1 h2
          subst h1
          subst h2
          exact ⟨hg, rfl, rfl, rfl, rfl⟩
        · intro f hf
          exact List.mem_map_of_mem _ hf
        · exact pyMax_map_isGreatest
            (fun f => |(emGet left f).getD 0 - (emGet right f).getD 0|) f0 fs
        · exact pyMin_map_isLeast
            (fun f => |(emGet left f).getD 0 - (emGet right f).getD 0|) f0 fs
        · rw [List.length_map]
          rfl
        · exact pyMax_map_isGreatest
            (fun f => (emGet left f).getD 0 - (emGet right f).getD 0) f0 fs
        · exact pyMin_map_isLeast
            (fun f => (emGet left f).getD 0 - (emGet right f).getD 0) f0 fs
        · rw [List.length_map]
          rfl
        · rw [List.length_map]
        · exact trivial

/-- Witness for C6 at disjoint single-frequency maps. -/
theorem claim_C6_interaural_analysis_witness :
    compute_interaural_differences [(1000, (30 : ℚ))] [(2000, (45 : ℚ))] = none ∧
    analyze_interaural_endpoint [(1000, (30 : ℚ))] [(2000, (45 : ℚ))] =
      Except.error "Unable to compute differences - insufficient data" :=
  (claim_C6_interaural_analysis [(1000, 30)] [(2000, 45)]).1 (by decide)

/-! ## Reference formulas for the trend numerics (from the spec's words) -/

/-- Population variance `sum((x - mean)^2) / n` (spec reference formula). -/
def specPopVariance (xs : List ℚ) : ℚ :=
  (xs.map (fun x => (x - xs.sum / (xs.length : ℚ)) ^ 2)).sum / (xs.length : ℚ)

/-- OLS slope of a series against indices 0, 1, 2, …:
`sum((i - mean(i)) * (y_i - mean(y))) / sum((i - mean(i))^2)`
(spec reference formula, no short-series or zero-denominator guards). -/
def specOlsSlope (ys : List ℚ) : ℚ :=
  (((indexVals ys.length).zip ys).map
    (fun p => (p.1 - (indexVals ys.length).sum / (ys.length : ℚ)) *
      (p.2 - ys.sum / (ys.length : ℚ)))).sum /
  ((indexVals ys.length).map
    (fun x => (x - (indexVals ys.length).sum / (ys.length : ℚ)) ^ 2)).sum

theorem trendDenominator_pos {ys : List ℚ} (h : 2 ≤ ys.length) :
    0 < trendDenominator ys := by
  unfold trendDenominator
  have hnpos : (0 : ℚ) < (ys.length : ℚ) := by
    have h0 : 0 < ys.length := by omega
    exact_mod_cast h0
  have hallnn : ∀ x ∈ indexVals ys.length, (0 : ℚ) ≤ x := by
    intro x hx
    unfold indexVals at hx
    obtain ⟨i, _, rfl⟩ := List.mem_map.mp hx
    exact Nat.cast_nonneg i
  have h1 : (1 : ℚ) ∈ indexVals ys.length := by
    unfold indexVals
    exact List.mem_map.mpr ⟨(1 : Nat), List.mem_range.mpr (by omega), by norm_num⟩
  have hsum1 : (1 : ℚ) ≤ (indexVals ys.length).sum := List.single_le_sum hallnn 1 h1
  have hxm : 0 < (indexVals ys.length).sum / (ys.length : ℚ) :=
    div_pos (by linarith) hnpos
  have h0mem : ((0 : ℚ) - (indexVals ys.length).sum / (ys.length : ℚ)) ^ 2 ∈
      (indexVals ys.length).map
        (fun x => (x - (indexVals ys.length).sum / (ys.length : ℚ)) ^ 2) := by
    refine List.mem_map.mpr ⟨0, ?_, rfl⟩
    unfold indexVals
    exact List.mem_map.mpr ⟨(0 : Nat), List.mem_range.mpr (by omega), by norm_num⟩
  have hle := List.single_le_sum
    (fun x hx => by
      obtain ⟨y, _, rfl⟩ := List.mem_map.mp hx
      positivity)
    _ h0mem
  have hpos0 : 0 < ((0 : ℚ) - (indexVals ys.length).sum / (ys.length : ℚ)) ^ 2 := by
    have h2 : ((0 : ℚ) - (indexVals ys.length).sum / (ys.length : ℚ)) ^ 2 =
        ((indexVals ys.length).sum / (ys.length : ℚ)) ^ 2 := by ring
    rw [h2]
    exact pow_pos hxm 2
  linarith

/-- For two or more points the code's variance is the population variance. -/
theorem calculate_variance_eq_spec {xs : List ℚ} (h : 2 ≤ xs.length) :
    calculate_variance xs = specPopVariance xs := by
  unfold calculate_variance specPopVariance
  rw [if_neg (by omega)]

/-- For three or more points the code's slope is the OLS slope. -/
theorem calculate_trend_eq_spec {ys : List ℚ} (h : 3 ≤ ys.length) :
    calculate_trend ys = specOlsSlope ys := by
  unfold calculate_trend
  rw [if_neg (by omega), if_neg (ne_of_gt (trendDenominator_pos (by omega)))]
  rfl

/-- Below three points the code returns slope 0 unconditionally. -/
theorem calculate_trend_short {ys : List ℚ} (h : ys.length < 3) :
    calculate_trend ys = 0 := by
  unfold calculate_trend
  rw [if_pos h]

/-! ## Claim C9: the trend numerics -/

/-- The amended numerics contract: all four variances are population
variances; the two slopes are the OLS slopes for three or more sessions,
and 0 for exactly two sessions. -/
def trendNumericsSpec (ms : List SessionMetric) (r : TrendResult) : Prop :=
  r.metrics.overall_variance = specPopVariance (overall_avgs ms)
  ∧ r.metrics.left_ear_variance = specPopVariance (left_avgs ms)
  ∧ r.metrics.right_ear_variance = specPopVariance (right_avgs ms)
  ∧ r.metrics.interaural_variance = specPopVariance (interaural_maxes ms)
  ∧ (3 ≤ ms.length →
      r.metrics.overall_trend_slope = specOlsSlope (overall_avgs ms)
      ∧ r.metrics.interaural_trend_slope = specOlsSlope (interaural_maxes ms))
  ∧ (ms.length = 2 →
      r.metrics.overall_trend_slope = 0 ∧ r.metrics.interaural_trend_slope = 0)

theorem length_overall_avgs (ms : List SessionMetric) :
    (overall_avgs ms).length = ms.length := by
  unfold overall_avgs
  exact List.length_map ms overall_avg

theorem length_left_avgs (ms : List SessionMetric) :
    (left_avgs ms).length = ms.length := by
  unfold left_avgs
  exact List.length_map ms _

theorem length_right_avgs (ms : List SessionMetric) :
    (right_avgs ms).length = ms.length := by
  unfold right_avgs
  exact List.length_map ms _

theorem length_interaural_maxes (ms : List SessionMetric) :
    (interaural_maxes ms).length = ms.length := by
  unfold interaural_maxes
  exact List.length_map ms _

/-- C9 (amended): with at least 2 complete sessions the reported variances
are exactly the population variances of the four per-session series; the
overall and interaural slopes equal the OLS slope against the session index
when there are at least 3 sessions, and are 0 (not the OLS value) when
there are exactly 2. -/
theorem claim_C9_trend_numerics (ms : List SessionMetric) (h : 2 ≤ ms.length) :
    ∃ r : TrendResult, analyze_session_trends ms = Except.ok r ∧ trendNumericsSpec ms r := by
  unfold analyze_session_trends
  rw [if_neg (by omega)]
  refine ⟨_, rfl, ?_, ?_, ?_, ?_, ?_, ?_⟩
  · exact calculate_variance_eq_spec (by rw [length_overall_avgs]; omega)
  · exact calculate_variance_eq_spec (by rw [length_left_avgs]; omega)
  · exact calculate_variance_eq_spec (by rw [length_right_avgs]; omega)
  · exact calculate_variance_eq_spec (by rw [length_interaural_maxes]; omega)
  · intro h3
    exact ⟨calculate_trend_eq_spec (by rw [length_overall_avgs]; omega),
      calculate_trend_eq_spec (by rw [length_interaural_maxes]; omega)⟩
  · intro h2
    exact ⟨calculate_trend_short (by rw [length_overall_avgs]; omega),
      calculate_trend_short (by rw [length_interaural_maxes]; omega)⟩

/-- Counterexample to C9 as stated: with exactly 2 sessions whose overall
averages are 0 and 10, the reported overall slope is 0 while the OLS slope
of the series is 10. -/
theorem claim_C9_trend_numerics_counterexample :
    (analyze_session_trends
        [{ left_avg := 0, right_avg := 0, max_interaural_diff := 0 },
         { left_avg := 20, right_avg := 0, max_interaural_diff := 0 }]).toOption.map
      (fun r => r.metrics.overall_trend_slope) = some 0
  ∧ specOlsSlope (overall_avgs
      [{ left_avg := 0, right_avg := 0, max_interaural_diff := 0 },
       { left_avg := 20, right_avg := 0, max_interaural_diff := 0 }]) = 10
  ∧ (0 : ℚ) ≠ 10 := by
  refine ⟨rfl, ?_, by norm_num⟩
  have hov : overall_avgs
      [{ left_avg := 0, right_avg := 0, max_interaural_diff := 0 },
       { left_avg := 20, right_avg := 0, max_interaural_diff := 0 }] = [0, 10] := by
    norm_num [overall_avgs, overall_avg]
  rw [hov]
  norm_num [specOlsSlope, indexVals, show List.range 2 = [0, 1] from rfl]

/-- Witness for the amended C9 at a concrete 3-session history. -/
theorem claim_C9_trend_numerics_witness :
    ∃ r : TrendResult, analyze_session_trends
        [{ left_avg := 10, right_avg := 10, max_interaural_diff := 0 },
         { left_avg := 20, right_avg := 20, max_interaural_diff := 5 },
         { left_avg := 30, right_avg := 30, max_interaural_diff := 10 }] = Except.ok r
      ∧ trendNumericsSpec
        [{ left_avg := 10, right_avg := 10, max_interaural_diff := 0 },
         { left_avg := 20, right_avg := 20, max_interaural_diff := 5 },
         { left_avg := 30, right_avg := 30, max_interaural_diff := 10 }] r :=
  claim_C9_trend_numerics _ (by decide)

/-! ## Claim C8: the trend classification cascade -/

/-- The amended classification contract over the computed metrics:
first-match cascade on the variance and slope bounds, with the changing
description carrying a direction exactly when a slope bound is exceeded
(|overall| > 2 OR |interaural| > 1), increasing iff the overall slope is
positive. -/
def trendClassificationSpec (r : TrendResult) : Prop :=
  ((r.classification = "stable") ↔
    (max r.metrics.overall_variance (max r.metrics.left_ear_variance r.metrics.right_ear_variance) ≤ 25
      ∧ |r.metrics.overall_trend_slope| ≤ 2 ∧ |r.metrics.interaural_trend_slope| ≤ 1))
  ∧ ((r.classification = "variable") ↔
    (25 < max r.metrics.overall_variance (max r.metrics.left_ear_variance r.metrics.right_ear_variance)
      ∧ max r.metrics.overall_variance (max r.metrics.left_ear_variance r.metrics.right_ear_variance) ≤ 100
      ∧ |r.metrics.overall_trend_slope| ≤ 2 ∧ |r.metrics.interaural_trend_slope| ≤ 1))
  ∧ ((r.classification = "changing") ↔
    (100 < max r.metrics.overall_variance (max r.metrics.left_ear_variance r.metrics.right_ear_variance)
      ∨ 2 < |r.metrics.overall_trend_slope| ∨ 1 < |r.metrics.interaural_trend_slope|))
  ∧ ((r.description = "Notable variation with increasing trend"
      ∨ r.description = "Notable variation with decreasing trend") ↔
    (2 < |r.metrics.overall_trend_slope| ∨ 1 < |r.metrics.interaural_trend_slope|))
  ∧ ((r.description = "Notable variation with increasing trend") ↔
    ((2 < |r.metrics.overall_trend_slope| ∨ 1 < |r.metrics.interaural_trend_slope|)
      ∧ 0 < r.metrics.overall_trend_slope))

theorem significant_trend_false_iff (ms : List SessionMetric) :
    significant_trend ms = false ↔
      (|calculate_trend (overall_avgs ms)| ≤ 2 ∧ |calculate_trend (interaural_maxes ms)| ≤ 1) := by
  unfold significant_trend
  rw [Bool.or_eq_false_iff]
  simp only [decide_eq_false_iff_not, not_lt]

theorem significant_trend_true_iff (ms : List SessionMetric) :
    significant_trend ms = true ↔
      (2 < |calculate_trend (overall_avgs ms)| ∨ 1 < |calculate_trend (interaural_maxes ms)|) := by
  unfold significant_trend
  simp only [Bool.or_eq_true, decide_eq_true_eq]

/-- C8 (amended): with at least 2 complete sessions the cascade classifies
stable, then variable (variance bound relaxed to 100, same slope bounds),
otherwise changing — and the changing description reports a direction
exactly when |overall slope| > 2 OR |interaural slope| > 1 (not only in the
former case), increasing iff the overall slope is positive. -/
theorem claim_C8_trend_classification (ms : List SessionMetric) (h : 2 ≤ ms.length) :
    ∃ r : TrendResult, analyze_session_trends ms = Except.ok r ∧ trendClassificationSpec r := by
  unfold analyze_session_trends
  rw [if_neg (by omega)]
  refine ⟨_, rfl, ?_⟩
  show trendClassificationSpec _
  unfold trendClassificationSpec
  dsimp only
  unfold classification_description
  by_cases h1 : max_variance ms ≤ 25 ∧ significant_trend ms = false
  · rw [if_pos h1]
    obtain ⟨hv, hs⟩ := h1
    obtain ⟨hso, hsi⟩ := (significant_trend_false_iff ms).mp hs
    unfold max_variance at hv
    refine ⟨iff_of_true rfl ⟨hv, hso, hsi⟩, ?_, ?_, ?_, ?_⟩
    · refine iff_of_false (by decide) ?_
      rintro ⟨hlt, _⟩
      linarith
    · refine iff_of_false (by decide) ?_
      rintro (h100 | hsl | hsl)
      · linarith
      · linarith
      · linarith
    · refine iff_of_false ?_ ?_
      · rintro (hd | hd) <;> exact absurd hd (by decide)
      · rintro (hgt | hgt)
        · linarith
        · linarith
    · refine iff_of_false (fun hd => absurd hd (by decide)) ?_
      rintro ⟨hgt | hgt, _⟩
      · linarith
      · linarith
  · rw [if_neg h1]
    by_cases h2 : max_variance ms ≤ 100 ∧ significant_trend ms = false
    · rw [if_pos h2]
      obtain ⟨hv, hs⟩ := h2
      obtain ⟨hso, hsi⟩ := (significant_trend_false_iff ms).mp hs
      have hv25 : ¬ max_variance ms ≤ 25 := fun hc => h1 ⟨hc, hs⟩
      unfold max_variance at hv hv25
      refine ⟨?_, iff_of_true rfl ⟨by linarith [not_le.mp hv25], hv, hso, hsi⟩, ?_, ?_, ?_⟩
      · refine iff_of_false (by decide) ?_
        rintro ⟨hc, _, _⟩
        exact hv25 hc
      · refine iff_of_false (by decide) ?_
        rintro (h100 | hsl | hsl)
        · linarith
        · linarith
        · linarith
      · refine iff_of_false ?_ ?_
        · rintro (hd | hd) <;> exact absurd hd (by decide)
        · rintro (hgt | hgt)
          · linarith
          · linarith
      · refine iff_of_false (fun hd => absurd hd (by decide)) ?_
        rintro ⟨hgt | hgt, _⟩
        · linarith
        · linarith
    · rw [if_neg h2]
      cases hsf : significant_trend ms with
      | false =>
        -- no significant trend, so the variance must exceed 100
        obtain ⟨hso, hsi⟩ := (significant_trend_false_iff ms).mp hsf
        have hv100 : ¬ max_variance ms ≤ 100 := fun hc => h2 ⟨hc, hsf⟩
        have hv100b : 100 < max_variance ms := not_le.mp hv100
        unfold max_variance at hv100b
        dsimp only
        refine ⟨?_, ?_, iff_of_true rfl (Or.inl hv100b), ?_, ?_⟩
        · refine iff_of_false (by decide) ?_
          rintro ⟨hc, _, _⟩
          linarith
        · refine iff_of_false (by decide) ?_
          rintro ⟨_, hc, _, _⟩
          linarith
        · rw [if_neg (by decide)]
          refine iff_of_false ?_ ?_
          · rintro (hd | hd) <;> exact absurd hd (by decide)
          · rintro (hgt | hgt)
            · linarith
            · linarith
        · rw [if_neg (by decide)]
          refine iff_of_false (by decide) ?_
          rintro ⟨hgt | hgt, _⟩
          · linarith
          · linarith
      | true =>
        -- significant trend: changing with a direction
        have hsT := (significant_trend_true_iff ms).mp hsf
        dsimp only
        refine ⟨?_, ?_, iff_of_true rfl (Or.inr hsT), ?_, ?_⟩
        · refine iff_of_false (by decide) ?_
          rintro ⟨_, hso, hsi⟩
          rcases hsT with hgt | hgt
          · linarith
          · linarith
        · refine iff_of_false (by decide) ?_
          rintro ⟨_, _, hso, hsi⟩
          rcases hsT with hgt | hgt
          · linarith
          · linarith
        · rw [if_pos rfl]
          by_cases h4 : 0 < calculate_trend (overall_avgs ms)
          · rw [if_pos h4]
            exact iff_of_true (Or.inl rfl) hsT
          · rw [if_neg h4]
            exact iff_of_true (Or.inr rfl) hsT
        · rw [if_pos rfl]
          by_cases h4 : 0 < calculate_trend (overall_avgs ms)
          · rw [if_pos h4]
            exact iff_of_true rfl ⟨hsT, h4⟩
          · rw [if_neg h4]
            refine iff_of_false ?_ ?_
            · intro hd
              exact absurd hd (by decide)
            · rintro ⟨_, hc⟩
              exact h4 hc

/-- Counterexample to C8 as stated: three sessions with constant overall
averages (overall slope 0) but interaural maxima 0, 2, 4 (interaural slope
2 > 1) classify as changing with a direction in the description, although
|overall slope| ≤ 2 — the claim would require the no-direction high-variance
description. -/
theorem claim_C8_trend_classification_counterexample :
    (analyze_session_trends
        [{ left_avg := 10, right_avg := 10, max_interaural_diff := 0 },
         { left_avg := 10, right_avg := 10, max_interaural_diff := 2 },
         { left_avg := 10, right_avg := 10, max_interaural_diff := 4 }]).toOption.map
      (fun r => (r.classification, r.description, r.metrics.overall_trend_slope))
      = some ("changing", "Notable variation with decreasing trend", 0) := by
  have hov : overall_avgs
      [{ left_avg := 10, right_avg := 10, max_interaural_diff := 0 },
       { left_avg := 10, right_avg := 10, max_interaural_diff := 2 },
       { left_avg := 10, right_avg := 10, max_interaural_diff := 4 }] = [10, 10, 10] := by
    norm_num [overall_avgs, overall_avg]
  have him : interaural_maxes
      [{ left_avg := 10, right_avg := 10, max_interaural_diff := 0 },
       { left_avg := 10, right_avg := 10, max_interaural_diff := 2 },
       { left_avg := 10, right_avg := 10, max_interaural_diff := 4 }] = [0, 2, 4] := by
    norm_num [interaural_maxes]
  have ht0 : calculate_trend [10, 10, 10] = 0 := by
    norm_num [calculate_trend, trendNumerator, trendDenominator, indexVals,
      show List.range 3 = [0, 1, 2] from rfl]
  have ht2 : calculate_trend [0, 2, 4] = 2 := by
    norm_num [calculate_trend, trendNumerator, trendDenominator, indexVals,
      show List.range 3 = [0, 1, 2] from rfl]
  have hsig : significant_trend
      [{ left_avg := 10, right_avg := 10, max_interaural_diff := 0 },
       { left_avg := 10, right_avg := 10, max_interaural_diff := 2 },
       { left_avg := 10, right_avg := 10, max_interaural_diff := 4 }] = true := by
    rw [significant_trend_true_iff, hov, him, ht0, ht2]
    norm_num
  have hcd : classification_description
      [{ left_avg := 10, right_avg := 10, max_interaural_diff := 0 },
       { left_avg := 10, right_avg := 10, max_interaural_diff := 2 },
       { left_avg := 10, right_avg := 10, max_interaural_diff := 4 }]
      = ("changing", "Notable variation with decreasing trend") := by
    unfold classification_description
    rw [hsig]
    rw [if_neg (by simp), if_neg (by simp), if_pos rfl, hov, ht0]
    rw [if_neg (by norm_num)]
  unfold analyze_session_trends
  rw [if_neg (by norm_num)]
  dsimp only [Except.toOption, Option.map]
  rw [hcd, hov, ht0]

/-- Witness for the amended C8 at a concrete stable 2-session history. -/
theorem claim_C8_trend_classification_witness :
    ∃ r : TrendResult, analyze_session_trends
        [{ left_avg := 10, right_avg := 10, max_interaural_diff := 0 },
         { left_avg := 10, right_avg := 10, max_interaural_diff := 0 }] = Except.ok r
      ∧ trendClassificationSpec r :=
  claim_C8_trend_classification _ (by decide)

end AuroHear
